import Mathlib

/-!
Shallow embedding of `src/cmd/stats.go` (package `cmd` of
ksmotiv8/serverless-cache-benchmark): a lock-free performance-metrics
aggregator.  The single-consumer goroutine `statsCollector` is modelled as a
pure step function on an explicit state record; the two buffered Go channels
are modelled as bounded queues with non-blocking (drop-on-full) enqueue; the
external HdrHistogram capability is modelled as the multiset (list) of
recorded values, with count / quantile / max queries defined over that list
(the spec treats the histogram as an opaque external dependency, so bucketing
and value-range precision are abstracted away — no claim depends on them).
Timestamps appear in the Go code only through `Time.Unix()`, so they are
modelled directly as epoch seconds (`Int`).  The `int64` counters are
modelled as unbounded `Int`: no claim concerns 64-bit wraparound and the
counters are plain monotone increments in the source.
-/

namespace ServerlessCacheBench

/-- Source: `const MetricWindowSizeSeconds = 5` (stats.go line 10). -/
def MetricWindowSizeSeconds : Int := 5

/-- Source: `make(chan LatencyEvent, 1000000)` in `NewPerformanceStats`. -/
def latencyChannelCapacity : Nat := 1000000

/-- Source: `make(chan struct\x7b\x7d, 100)` in `NewPerformanceStats`. -/
def errorChannelCapacity : Nat := 100

/-- Model of the external `hdrhistogram.Histogram` capability: the list of
values recorded so far (spec section 6 declares it an opaque dependency
supporting `recordValue`, `valueAtQuantile`, `totalCount`, `max`). -/
structure Hist where
  values : List Int
deriving DecidableEq, Repr

/-- Fresh histogram, as built by `hdrhistogram.New(1, 60*1000*1000, 3)`. -/
def Hist.empty : Hist := ⟨[]⟩

/-- Model of `Histogram.RecordValue`. -/
def Hist.record (h : Hist) (v : Int) : Hist := ⟨h.values ++ [v]⟩

/-- Model of `Histogram.TotalCount`. -/
def Hist.totalCount (h : Hist) : Int := (h.values.length : Int)

/-- Model of `Histogram.Max` (0 on an empty histogram). -/
def Hist.maxValue (h : Hist) : Int := h.values.foldr max 0

/-- Insertion into a sorted list, used to define quantiles. -/
def insertSorted (v : Int) : List Int → List Int
  | [] => [v]
  | x :: xs => if v ≤ x then v :: x :: xs else x :: insertSorted v xs

/-- Sort a list of values ascending. -/
def sortAsc (l : List Int) : List Int := l.foldr insertSorted []

/-- Model of `Histogram.ValueAtQuantile p`: the value at rank
`max 1 ⌈p/100 * n⌉` in the ascending ordering of the recorded values
(0 when empty).  This mirrors HdrHistogram's rank-based quantile; the exact
bucket rounding of the external library is abstracted, which no claim
depends on. -/
def Hist.valueAtQuantile (h : Hist) (p : ℚ) : Int :=
  let n := h.values.length
  if n = 0 then 0
  else
    let rank := max 1 (⌈p * (n : ℚ) / 100⌉.toNat)
    (sortAsc h.values).getD (min (rank - 1) (n - 1)) 0

/-- Finite-map model used for `map[int64]...` fields. -/
def mapInsert {β : Type} (m : Int → Option β) (k : Int) (v : β) :
    Int → Option β :=
  fun x => if x = k then some v else m x

/-- Source: `type LatencyEvent struct` (stats.go lines 13–16); the
`Timestamp` is modelled by the only thing the collector reads from it,
`Timestamp.Unix()`, an epoch second. -/
structure LatencyEvent where
  LatencyMicros : Int
  second : Int
deriving DecidableEq, Repr

/-- Source: `type PerformanceStats struct` (stats.go lines 19–44), restricted
to the aggregate state the collector and the query surface touch.  The two
channels and `done` are modelled separately (queue model below); `StartTime`
appears only through `time.Since(StartTime)` and is modelled by passing the
elapsed time to `GetQPS` explicitly. -/
structure PerformanceStats where
  TotalOps : Int
  SuccessOps : Int
  FailedOps : Int
  Histogram : Hist
  currentWindowStartSecond : Int
  currentHistogram : Hist
  windowedHistograms : Int → Option Hist
  perSecondOps : Int → Option Int
  perSecondErrors : Int → Option Int
  lastSecond : Int
  currentSecondOps : Int
  currentSecondErrors : Int

/-- Source: `NewPerformanceStats` (stats.go lines 46–67).  `now` is the
creation-time epoch second (`time.Now().Unix()`).  Note that
`currentWindowStartSecond` is *not* initialised there and therefore starts
at the Go zero value 0. -/
def NewPerformanceStats (now : Int) : PerformanceStats where
  TotalOps := 0
  SuccessOps := 0
  FailedOps := 0
  Histogram := Hist.empty
  currentWindowStartSecond := 0
  currentHistogram := Hist.empty
  windowedHistograms := fun _ => none
  perSecondOps := fun _ => none
  perSecondErrors := fun _ => none
  lastSecond := now
  currentSecondOps := 0
  currentSecondErrors := 0

/-- An event dequeued by the collector: a success with its latency and the
event-timestamp second, or a failure stamped with the dequeue-time second. -/
inductive StatsEvent where
  | latency (latencyMicros : Int) (second : Int)
  | failure (second : Int)
deriving DecidableEq, Repr

/-- Source: the `case event := <-ps.latencyChannel` branch of
`statsCollector` (stats.go lines 73–114), translated line by line. -/
def processLatency (ps : PerformanceStats) (latencyMicros currentSecond : Int) :
    PerformanceStats :=
  -- lines 77–96: per-second boundary bookkeeping and rolling eviction
  let ps :=
    if currentSecond ≠ ps.lastSecond then
      let ps :=
        if 0 < ps.currentSecondOps ∨ 0 < ps.currentSecondErrors then
          { ps with
            perSecondOps := mapInsert ps.perSecondOps ps.lastSecond ps.currentSecondOps
            perSecondErrors := mapInsert ps.perSecondErrors ps.lastSecond ps.currentSecondErrors }
        else ps
      let ps := { ps with currentSecondOps := 0, currentSecondErrors := 0,
                          lastSecond := currentSecond }
      -- lines 90–95: `for sec := range ps.perSecondOps` — iterates the keys of
      -- `perSecondOps` and deletes stale keys from both maps, so a key is
      -- removed from `perSecondErrors` only when it is present in `perSecondOps`
      { ps with
        perSecondOps := fun sec =>
          if 60 < currentSecond - sec then none else ps.perSecondOps sec
        perSecondErrors := fun sec =>
          if (ps.perSecondOps sec).isSome ∧ 60 < currentSecond - sec then none
          else ps.perSecondErrors sec }
    else ps
  -- line 97
  let ps := { ps with currentSecondOps := ps.currentSecondOps + 1 }
  -- line 100
  let ps := { ps with Histogram := ps.Histogram.record latencyMicros }
  -- lines 103–109: window archive boundary
  let ps :=
    if MetricWindowSizeSeconds ≤ currentSecond - ps.currentWindowStartSecond then
      let ps :=
        if 0 < ps.currentHistogram.totalCount then
          { ps with
            windowedHistograms :=
              mapInsert ps.windowedHistograms ps.currentWindowStartSecond ps.currentHistogram }
        else ps
      { ps with currentWindowStartSecond := currentSecond,
                currentHistogram := Hist.empty }
    else ps
  -- line 110
  let ps := { ps with currentHistogram := ps.currentHistogram.record latencyMicros }
  -- lines 113–114
  { ps with SuccessOps := ps.SuccessOps + 1, TotalOps := ps.TotalOps + 1 }

/-- Source: the `case <-ps.errorChannel` branch of `statsCollector`
(stats.go lines 116–135), translated line by line.  Note: this branch
finalizes the previous second's accumulators (lines 120–130) but contains
no analogue of the eviction sweep of lines 90–95. -/
def processFailure (ps : PerformanceStats) (currentSecond : Int) :
    PerformanceStats :=
  let ps :=
    if currentSecond ≠ ps.lastSecond then
      let ps :=
        if 0 < ps.currentSecondOps ∨ 0 < ps.currentSecondErrors then
          { ps with
            perSecondOps := mapInsert ps.perSecondOps ps.lastSecond ps.currentSecondOps
            perSecondErrors := mapInsert ps.perSecondErrors ps.lastSecond ps.currentSecondErrors }
        else ps
      { ps with currentSecondOps := 0, currentSecondErrors := 0,
                lastSecond := currentSecond }
    else ps
  -- line 131
  let ps := { ps with currentSecondErrors := ps.currentSecondErrors + 1 }
  -- lines 134–135
  { ps with FailedOps := ps.FailedOps + 1, TotalOps := ps.TotalOps + 1 }

/-- One dequeue-and-process step of the `statsCollector` loop. -/
def processEvent (ps : PerformanceStats) : StatsEvent → PerformanceStats
  | .latency v s => processLatency ps v s
  | .failure s => processFailure ps s

/-- The collector fully draining a sequence of events, in FIFO order. -/
def processEvents (ps : PerformanceStats) (evs : List StatsEvent) :
    PerformanceStats :=
  evs.foldl processEvent ps

/-- Number of success (latency) events in a drained sequence. -/
def countSuccess : List StatsEvent → Int
  | [] => 0
  | .latency _ _ :: evs => countSuccess evs + 1
  | .failure _ :: evs => countSuccess evs

/-- Number of failure events in a drained sequence. -/
def countFailure : List StatsEvent → Int
  | [] => 0
  | .latency _ _ :: evs => countFailure evs
  | .failure _ :: evs => countFailure evs + 1

/-- Source: `GetQPS` (stats.go lines 167–173).  `elapsed` is
`time.Since(ps.StartTime).Seconds()`, passed explicitly; the float64
division is modelled over ℚ. -/
def GetQPS (ps : PerformanceStats) (elapsed : ℚ) : ℚ :=
  if elapsed = 0 then 0 else (ps.TotalOps : ℚ) / elapsed

/-- Source: `GetStats` (stats.go lines 175–191). -/
def GetStats (ps : PerformanceStats) (elapsed : ℚ) :
    Int × Int × Int × ℚ × Int × Int × Int :=
  let p50 := if 0 < ps.Histogram.totalCount then ps.Histogram.valueAtQuantile 50 else 0
  let p95 := if 0 < ps.Histogram.totalCount then ps.Histogram.valueAtQuantile 95 else 0
  let p99 := if 0 < ps.Histogram.totalCount then ps.Histogram.valueAtQuantile 99 else 0
  (ps.TotalOps, ps.SuccessOps, ps.FailedOps, GetQPS ps elapsed, p50, p95, p99)

/-- Source: `GetPreviousWindowStats` (stats.go lines 195–206): a `nil` map
lookup result and the `histToUse == nil` test are together modelled by the
`Option` being `none`. -/
def GetPreviousWindowStats (ps : PerformanceStats) :
    Int × Int × Int × Int × Int :=
  match ps.windowedHistograms (ps.currentWindowStartSecond - MetricWindowSizeSeconds) with
  | none => (0, 0, 0, 0, 0)
  | some histToUse =>
    if histToUse.totalCount = 0 then (0, 0, 0, 0, 0)
    else (histToUse.totalCount,
          histToUse.valueAtQuantile 50,
          histToUse.valueAtQuantile 95,
          histToUse.valueAtQuantile 99,
          histToUse.maxValue)

/-- Source: `GetOpsLastSecond` (stats.go lines 219–225); `now` is
`time.Now().Unix()` at call time. -/
def GetOpsLastSecond (ps : PerformanceStats) (now : Int) : Int :=
  match ps.perSecondOps (now - 1) with
  | some ops => ops
  | none => 0

/-- Source: `GetErrorsLastSecond` (stats.go lines 228–234). -/
def GetErrorsLastSecond (ps : PerformanceStats) (now : Int) : Int :=
  match ps.perSecondErrors (now - 1) with
  | some errs => errs
  | none => 0

/-- Source: `GetLastSecondPercentile` (stats.go lines 237–251).  In the
model `currentHistogram` is never `nil` (the constructor and the collector
always install one), so the `!= nil` guard is always satisfied. -/
def GetLastSecondPercentile (ps : PerformanceStats) (now : Int)
    (percentile : ℚ) : Int :=
  let lastSec := now - 1
  let archived :=
    match ps.windowedHistograms lastSec with
    | some hist =>
      if 0 < hist.totalCount then some (hist.valueAtQuantile percentile) else none
    | none => none
  match archived with
  | some v => v
  | none =>
    if 0 < ps.currentHistogram.totalCount then
      ps.currentHistogram.valueAtQuantile percentile
    else 0

/-- Non-blocking send on a bounded mailbox of capacity `cap`: the Go
`select \x7b case ch <- e: ... default: \x7d` enqueues when the buffer has
room and otherwise drops the event, leaving the queue unchanged
(`RecordLatency`, stats.go lines 144–155, and `RecordError`,
lines 158–165). -/
def trySend {α : Type} (cap : Nat) (q : List α) (e : α) : List α :=
  if q.length < cap then q ++ [e] else q

/-- Source: `RecordLatency` (stats.go lines 144–155), acting on the latency
mailbox contents. -/
def RecordLatency (q : List LatencyEvent) (ev : LatencyEvent) :
    List LatencyEvent :=
  trySend latencyChannelCapacity q ev

/-- Source: `RecordError` (stats.go lines 158–165), acting on the error
mailbox contents (`struct\x7b\x7d` payloads are modelled as `Unit`). -/
def RecordError (q : List Unit) : List Unit :=
  trySend errorChannelCapacity q ()

/-- A producer-side or collector-side action on a mailbox: a non-blocking
send attempt, or the collector dequeuing the oldest event. -/
inductive MailboxOp (α : Type) where
  | send (e : α)
  | drain
deriving Repr

/-- One mailbox action. -/
def mailboxStep {α : Type} (cap : Nat) (q : List α) : MailboxOp α → List α
  | .send e => trySend cap q e
  | .drain => q.tail

/-- A mailbox, initially empty, after any interleaving of sends and drains. -/
def mailboxRun {α : Type} (cap : Nat) (ops : List (MailboxOp α)) : List α :=
  ops.foldl (mailboxStep cap) []

/-- The per-second store performed at a second boundary (stats.go
lines 79–82 and 122–125), restricted to the operations map: a
proof-internal name for the corresponding subterm of the collector
branches. -/
def finalizeOps (ps : PerformanceStats) : Int → Option Int :=
  if 0 < ps.currentSecondOps ∨ 0 < ps.currentSecondErrors then
    mapInsert ps.perSecondOps ps.lastSecond ps.currentSecondOps
  else ps.perSecondOps

/-- As `finalizeOps`, for the errors map. -/
def finalizeErrors (ps : PerformanceStats) : Int → Option Int :=
  if 0 < ps.currentSecondOps ∨ 0 < ps.currentSecondErrors then
    mapInsert ps.perSecondErrors ps.lastSecond ps.currentSecondErrors
  else ps.perSecondErrors

@[simp]
theorem mapInsert_apply {β : Type} (m : Int → Option β) (k : Int) (v : β)
    (x : Int) : mapInsert m k v x = if x = k then some v else m x := rfl

theorem processLatency_TotalOps (ps : PerformanceStats) (v c : Int) :
    (processLatency ps v c).TotalOps = ps.TotalOps + 1 := by
  simp only [processLatency]
  split_ifs <;> rfl

theorem processLatency_SuccessOps (ps : PerformanceStats) (v c : Int) :
    (processLatency ps v c).SuccessOps = ps.SuccessOps + 1 := by
  simp only [processLatency]
  split_ifs <;> rfl

theorem processLatency_FailedOps (ps : PerformanceStats) (v c : Int) :
    (processLatency ps v c).FailedOps = ps.FailedOps := by
  simp only [processLatency]
  split_ifs <;> rfl

theorem processFailure_TotalOps (ps : PerformanceStats) (c : Int) :
    (processFailure ps c).TotalOps = ps.TotalOps + 1 := by
  simp only [processFailure]
  split_ifs <;> rfl

theorem processFailure_SuccessOps (ps : PerformanceStats) (c : Int) :
    (processFailure ps c).SuccessOps = ps.SuccessOps := by
  simp only [processFailure]
  split_ifs <;> rfl

theorem processFailure_FailedOps (ps : PerformanceStats) (c : Int) :
    (processFailure ps c).FailedOps = ps.FailedOps + 1 := by
  simp only [processFailure]
  split_ifs <;> rfl

theorem processEvents_counters (evs : List StatsEvent) :
    ∀ ps : PerformanceStats,
      (processEvents ps evs).TotalOps
        = ps.TotalOps + countSuccess evs + countFailure evs
      ∧ (processEvents ps evs).SuccessOps = ps.SuccessOps + countSuccess evs
      ∧ (processEvents ps evs).FailedOps = ps.FailedOps + countFailure evs := by
  induction evs with
  | nil => intro ps; simp [processEvents, countSuccess, countFailure]
  | cons e evs ih =>
    intro ps
    have hstep : processEvents ps (e :: evs) = processEvents (processEvent ps e) evs := rfl
    obtain ⟨h1, h2, h3⟩ := ih (processEvent ps e)
    cases e with
    | latency v c =>
      have s1 : (processEvent ps (StatsEvent.latency v c)).TotalOps = ps.TotalOps + 1 :=
        processLatency_TotalOps ps v c
      have s2 : (processEvent ps (StatsEvent.latency v c)).SuccessOps = ps.SuccessOps + 1 :=
        processLatency_SuccessOps ps v c
      have s3 : (processEvent ps (StatsEvent.latency v c)).FailedOps = ps.FailedOps :=
        processLatency_FailedOps ps v c
      refine ⟨?_, ?_, ?_⟩
      · rw [hstep, h1, s1]; simp only [countSuccess, countFailure]; omega
      · rw [hstep, h2, s2]; simp only [countSuccess]; omega
      · rw [hstep, h3, s3]; simp only [countFailure]
    | failure c =>
      have s1 : (processEvent ps (StatsEvent.failure c)).TotalOps = ps.TotalOps + 1 :=
        processFailure_TotalOps ps c
      have s2 : (processEvent ps (StatsEvent.failure c)).SuccessOps = ps.SuccessOps :=
        processFailure_SuccessOps ps c
      have s3 : (processEvent ps (StatsEvent.failure c)).FailedOps = ps.FailedOps + 1 :=
        processFailure_FailedOps ps c
      refine ⟨?_, ?_, ?_⟩
      · rw [hstep, h1, s1]; simp only [countSuccess, countFailure]; omega
      · rw [hstep, h2, s2]; simp only [countSuccess]
      · rw [hstep, h3, s3]; simp only [countFailure]; omega

/-- C1: after the Aggregation Task fully drains a sequence containing N
success events and M failure events, `TotalOps = N + M`,
`SuccessOps = N` and `FailedOps = M`. -/
theorem claim_C1_counters_after_drain (t0 : Int) (evs : List StatsEvent) :
    (processEvents (NewPerformanceStats t0) evs).TotalOps
      = countSuccess evs + countFailure evs
    ∧ (processEvents (NewPerformanceStats t0) evs).SuccessOps = countSuccess evs
    ∧ (processEvents (NewPerformanceStats t0) evs).FailedOps = countFailure evs := by
  obtain ⟨h1, h2, h3⟩ := processEvents_counters evs (NewPerformanceStats t0)
  refine ⟨?_, ?_, ?_⟩
  · rw [h1]; simp only [NewPerformanceStats]; omega
  · rw [h2]; simp only [NewPerformanceStats]; omega
  · rw [h3]; simp only [NewPerformanceStats]; omega

/-- C3: at every state observed after the Aggregation Task finishes
processing an event — i.e. after draining any sequence of events — the
counter invariant `TotalOps = SuccessOps + FailedOps` holds. -/
theorem claim_C3_counter_invariant (t0 : Int) (evs : List StatsEvent) :
    (processEvents (NewPerformanceStats t0) evs).TotalOps
      = (processEvents (NewPerformanceStats t0) evs).SuccessOps
        + (processEvents (NewPerformanceStats t0) evs).FailedOps := by
  obtain ⟨h1, h2, h3⟩ := processEvents_counters evs (NewPerformanceStats t0)
  rw [h1, h2, h3]
  simp only [NewPerformanceStats]
  omega

theorem processFailure_perSecondOps_apply (ps : PerformanceStats) (c k : Int) :
    (processFailure ps c).perSecondOps k =
      if c ≠ ps.lastSecond then finalizeOps ps k else ps.perSecondOps k := by
  simp only [processFailure, finalizeOps]
  split_ifs <;> rfl

theorem processFailure_perSecondErrors_apply (ps : PerformanceStats) (c k : Int) :
    (processFailure ps c).perSecondErrors k =
      if c ≠ ps.lastSecond then finalizeErrors ps k else ps.perSecondErrors k := by
  simp only [processFailure, finalizeErrors]
  split_ifs <;> rfl

theorem processFailure_lastSecond (ps : PerformanceStats) (c : Int) :
    (processFailure ps c).lastSecond = c := by
  simp only [processFailure]
  by_cases hb : c ≠ ps.lastSecond
  · simp [hb]
  · push_neg at hb
    simp [hb]

theorem processLatency_perSecondOps_apply (ps : PerformanceStats) (v c k : Int) :
    (processLatency ps v c).perSecondOps k =
      if c ≠ ps.lastSecond then
        (if 60 < c - k then none else finalizeOps ps k)
      else ps.perSecondOps k := by
  simp only [processLatency, finalizeOps]
  split_ifs <;> simp_all

theorem processLatency_perSecondErrors_apply (ps : PerformanceStats) (v c k : Int) :
    (processLatency ps v c).perSecondErrors k =
      if c ≠ ps.lastSecond then
        (if (finalizeOps ps k).isSome ∧ 60 < c - k then none else finalizeErrors ps k)
      else ps.perSecondErrors k := by
  simp only [processLatency, finalizeOps, finalizeErrors]
  split_ifs <;> simp_all

/-- The per-second maps have the same domain: the central invariant behind
C10 and the eviction reasoning. -/
def keysAligned (ps : PerformanceStats) : Prop :=
  ∀ k, (ps.perSecondOps k).isSome ↔ (ps.perSecondErrors k).isSome

theorem keysAligned_new (t0 : Int) : keysAligned (NewPerformanceStats t0) := by
  intro k
  simp [NewPerformanceStats]

theorem keysAligned_finalize {ps : PerformanceStats} (h : keysAligned ps) :
    ∀ k, (finalizeOps ps k).isSome ↔ (finalizeErrors ps k).isSome := by
  intro k
  simp only [finalizeOps, finalizeErrors]
  split_ifs with hc
  · simp only [mapInsert_apply]
    by_cases hk : k = ps.lastSecond
    · simp [hk]
    · simp [hk, h k]
  · exact h k

theorem keysAligned_processEvent {ps : PerformanceStats} (h : keysAligned ps)
    (e : StatsEvent) : keysAligned (processEvent ps e) := by
  intro k
  cases e with
  | latency v c =>
    show ((processLatency ps v c).perSecondOps k).isSome
      ↔ ((processLatency ps v c).perSecondErrors k).isSome
    rw [processLatency_perSecondOps_apply, processLatency_perSecondErrors_apply]
    by_cases hb : c ≠ ps.lastSecond
    · simp only [if_pos hb]
      by_cases hs : 60 < c - k
      · simp only [if_pos hs]
        by_cases ho : (finalizeOps ps k).isSome
        · simp [ho, hs]
        · have he : ¬ (finalizeErrors ps k).isSome := fun hx =>
            ho ((keysAligned_finalize h k).mpr hx)
          simp only [ho, hs, false_and, and_true, if_false]
          simp only [Option.isSome] at he ⊢
          constructor
          · intro hx; cases hx
          · intro hx; exact absurd hx he
      · simp only [if_neg hs]
        have hcond : ¬ ((finalizeOps ps k).isSome ∧ 60 < c - k) := fun hx => hs hx.2
        simp only [if_neg hcond]
        exact keysAligned_finalize h k
    · simp only [if_neg hb]
      exact h k
  | failure c =>
    show ((processFailure ps c).perSecondOps k).isSome
      ↔ ((processFailure ps c).perSecondErrors k).isSome
    rw [processFailure_perSecondOps_apply, processFailure_perSecondErrors_apply]
    by_cases hb : c ≠ ps.lastSecond
    · simp only [if_pos hb]
      exact keysAligned_finalize h k
    · simp only [if_neg hb]
      exact h k

theorem keysAligned_processEvents (evs : List StatsEvent) :
    ∀ ps : PerformanceStats, keysAligned ps → keysAligned (processEvents ps evs) := by
  induction evs with
  | nil => intro ps h; exact h
  | cons e evs ih =>
    intro ps h
    exact ih (processEvent ps e) (keysAligned_processEvent h e)

/-- C10: after the Aggregation Task drains any sequence of events starting
from a fresh aggregator, the per-second operations map and the per-second
errors map have exactly the same set of keys: a key is present in one
exactly when it is present in the other (second-boundary finalizes store
into both maps under the same key, and the eviction sweep, which iterates
the operations map, deletes each stale key from both). -/
theorem claim_C10_perSecond_keys_eq (t0 : Int) (evs : List StatsEvent) (k : Int) :
    ((processEvents (NewPerformanceStats t0) evs).perSecondOps k).isSome
      ↔ ((processEvents (NewPerformanceStats t0) evs).perSecondErrors k).isSome :=
  keysAligned_processEvents evs (NewPerformanceStats t0) (keysAligned_new t0) k

theorem finalizeOps_isSome_of_isSome {ps : PerformanceStats} {k : Int}
    (h : (ps.perSecondOps k).isSome) : (finalizeOps ps k).isSome := by
  simp only [finalizeOps]
  split_ifs with hc
  · simp only [mapInsert_apply]
    by_cases hk : k = ps.lastSecond
    · simp [hk]
    · simpa [hk] using h
  · exact h

theorem finalizeErrors_isSome_of_isSome {ps : PerformanceStats} {k : Int}
    (h : (ps.perSecondErrors k).isSome) : (finalizeErrors ps k).isSome := by
  simp only [finalizeErrors]
  split_ifs with hc
  · simp only [mapInsert_apply]
    by_cases hk : k = ps.lastSecond
    · simp [hk]
    · simpa [hk] using h
  · exact h

/-- C2 counterexample: the claim says every dequeued failure event performs
the same finalize **and evict** step as a success event.  Start a fresh
aggregator at second 0, drain one success at second 0 and then one failure
dequeued at second 61.  Key 0 is older than 60 seconds relative to 61
(61 − 0 > 60), so the claimed sweep would evict it, yet after the failure
event the per-second operations map still holds `0 ↦ 1`: the failure branch
of `statsCollector` (stats.go lines 116–135) contains no eviction loop. -/
theorem claim_C2_counterexample :
    (processEvents (NewPerformanceStats 0)
        [.latency 9 0, .failure 61]).perSecondOps 0 = some 1 := by
  decide

/-- C2 as amended: on a dequeued failure event the Aggregation Task performs
the second-boundary *finalize* step (when the dequeue-time second differs
from `lastSecond` and an accumulator is nonzero, it stores both accumulators
into the per-second mappings under `lastSecond`, then resets them and sets
`lastSecond` to the new second) — but it performs **no eviction sweep**: no
key is ever removed from either per-second mapping by a failure event. -/
theorem claim_C2_failure_finalize_no_evict (ps : PerformanceStats) (c k : Int) :
    ((ps.perSecondOps k).isSome → ((processFailure ps c).perSecondOps k).isSome)
    ∧ ((ps.perSecondErrors k).isSome →
        ((processFailure ps c).perSecondErrors k).isSome)
    ∧ (c ≠ ps.lastSecond →
        (0 < ps.currentSecondOps ∨ 0 < ps.currentSecondErrors) →
        (processFailure ps c).perSecondOps ps.lastSecond = some ps.currentSecondOps
        ∧ (processFailure ps c).perSecondErrors ps.lastSecond
            = some ps.currentSecondErrors)
    ∧ (processFailure ps c).lastSecond = c := by
  refine ⟨?_, ?_, ?_, processFailure_lastSecond ps c⟩
  · intro h
    rw [processFailure_perSecondOps_apply]
    split_ifs with hb
    · exact finalizeOps_isSome_of_isSome h
    · exact h
  · intro h
    rw [processFailure_perSecondErrors_apply]
    split_ifs with hb
    · exact finalizeErrors_isSome_of_isSome h
    · exact h
  · intro hb hacc
    rw [processFailure_perSecondOps_apply, processFailure_perSecondErrors_apply]
    simp only [if_pos hb, finalizeOps, finalizeErrors, if_pos hacc, mapInsert_apply,
      if_pos rfl]
    exact ⟨rfl, rfl⟩

/-- A concrete state for the C2 witness: after a success at second 0 and a
success at second 1, the finalize has stored `0 ↦ (1 ops, 0 errors)`,
`lastSecond = 1` and the current-second ops accumulator is 1. -/
def psWitnessC2 : PerformanceStats :=
  processEvents (NewPerformanceStats 0) [.latency 4 0, .latency 5 1]

theorem claim_C2_failure_finalize_no_evict_witness :
    ((processFailure psWitnessC2 2).perSecondOps 0).isSome
    ∧ ((processFailure psWitnessC2 2).perSecondErrors 0).isSome
    ∧ (processFailure psWitnessC2 2).perSecondOps 1 = some 1
    ∧ (processFailure psWitnessC2 2).perSecondErrors 1 = some 0
    ∧ (processFailure psWitnessC2 2).lastSecond = 2 := by
  obtain ⟨h1, h2, h3, h4⟩ := claim_C2_failure_finalize_no_evict psWitnessC2 2 0
  have hstore := h3 (by decide) (by decide)
  exact ⟨h1 (by decide), h2 (by decide), hstore.1, hstore.2, h4⟩

theorem processLatency_evict {ps : PerformanceStats} (hA : keysAligned ps)
    (v c s : Int) (hb : c ≠ ps.lastSecond) (hs : 60 < c - s) :
    (processLatency ps v c).perSecondOps s = none
    ∧ (processLatency ps v c).perSecondErrors s = none := by
  rw [processLatency_perSecondOps_apply, processLatency_perSecondErrors_apply]
  constructor
  · simp [hb, hs]
  · simp only [if_pos hb]
    by_cases ho : (finalizeOps ps s).isSome
    · simp [ho, hs]
    · have he : ¬ (finalizeErrors ps s).isSome := fun hx =>
        ho ((keysAligned_finalize hA s).mpr hx)
      have hcond : ¬ ((finalizeOps ps s).isSome ∧ 60 < c - s) := fun hx => ho hx.1
      rw [if_neg hcond]
      exact Option.not_isSome_iff_eq_none.mp he

/-- C5 counterexample: the claim says that once *any* event with second
`s + 61` or later has been processed, key `s` is gone from the per-second
maps.  Drain a success at second 0 and then a failure dequeued at second 62
(62 ≥ 0 + 61): key 0 is still present with value 1, because only the
success branch of `statsCollector` runs the eviction sweep. -/
theorem claim_C5_counterexample :
    (processEvents (NewPerformanceStats 0)
        [.latency 7 0, .failure 62]).perSecondOps 0 = some 1 := by
  decide

/-- C5 as amended: eviction is guaranteed only by the success branch.  For
every reachable state, once a **success** event is processed whose second
`c` crosses a second boundary (`c ≠ lastSecond`) and satisfies
`c − s > 60`, the per-second operations and errors mappings contain no
entry for key `s`. -/
theorem claim_C5_eviction_on_success_boundary (t0 : Int) (evs : List StatsEvent)
    (v c s : Int)
    (hb : c ≠ (processEvents (NewPerformanceStats t0) evs).lastSecond)
    (hs : 60 < c - s) :
    (processEvent (processEvents (NewPerformanceStats t0) evs)
        (.latency v c)).perSecondOps s = none
    ∧ (processEvent (processEvents (NewPerformanceStats t0) evs)
        (.latency v c)).perSecondErrors s = none :=
  processLatency_evict
    (keysAligned_processEvents evs (NewPerformanceStats t0) (keysAligned_new t0))
    v c s hb hs

theorem claim_C5_eviction_on_success_boundary_witness :
    (processEvent (processEvents (NewPerformanceStats 0) [.latency 7 0])
        (.latency 3 62)).perSecondOps 0 = none
    ∧ (processEvent (processEvents (NewPerformanceStats 0) [.latency 7 0])
        (.latency 3 62)).perSecondErrors 0 = none :=
  claim_C5_eviction_on_success_boundary 0 [.latency 7 0] 3 62 0
    (by decide) (by decide)

/-- The C4 scenario: one success per second at seconds 0,1,2,3,4, then one
success at second 5, drained by a fresh aggregator created at second 0
(whose `currentWindowStartSecond` starts at the Go zero value 0). -/
def stScenarioC4 : PerformanceStats :=
  processEvents (NewPerformanceStats 0)
    [.latency 100 0, .latency 200 1, .latency 300 2,
     .latency 400 3, .latency 500 4, .latency 600 5]

/-- C4: with `MetricWindowSizeSeconds = 5`, after successes at seconds
0,1,2,3,4 followed by a success at second 5, the window starting at second
0 is archived under key 0 holding exactly the five pre-boundary values
(count 5 — the archiving happened before the second-5 event was recorded),
the window start moved to 5, and the second-5 event went into a freshly
allocated current histogram containing only that event. -/
theorem claim_C4_window_archive_boundary :
    stScenarioC4.windowedHistograms 0 = some (Hist.mk [100, 200, 300, 400, 500])
    ∧ (Hist.mk [100, 200, 300, 400, 500]).totalCount = 5
    ∧ stScenarioC4.currentWindowStartSecond = 5
    ∧ stScenarioC4.currentHistogram = Hist.mk [600] := by
  refine ⟨by decide, by decide, by decide, by decide⟩

theorem trySend_length_le {α : Type} (cap : Nat) (q : List α) (e : α)
    (h : q.length ≤ cap) : (trySend cap q e).length ≤ cap := by
  simp only [trySend]
  split_ifs with hlt
  · simp only [List.length_append, List.length_cons, List.length_nil]
    omega
  · exact h

theorem mailboxStep_length_le {α : Type} (cap : Nat) (q : List α)
    (op : MailboxOp α) (h : q.length ≤ cap) :
    (mailboxStep cap q op).length ≤ cap := by
  cases op with
  | send e => exact trySend_length_le cap q e h
  | drain =>
    simp only [mailboxStep, List.length_tail]
    omega

theorem mailboxRun_length_le {α : Type} (cap : Nat) (ops : List (MailboxOp α)) :
    (mailboxRun cap ops).length ≤ cap := by
  suffices h : ∀ (ops : List (MailboxOp α)) (q : List α), q.length ≤ cap →
      (ops.foldl (mailboxStep cap) q).length ≤ cap by
    exact h ops [] (by simp)
  intro ops
  induction ops with
  | nil => intro q h; exact h
  | cons op ops ih =>
    intro q h
    exact ih (mailboxStep cap q op) (mailboxStep_length_le cap q op h)

/-- C6: a `RecordLatency` or `RecordError` call against a full mailbox
leaves the mailbox unchanged — the event is dropped without blocking, so it
is never seen by the collector and no aggregate state can change because of
it — and under any interleaving of non-blocking sends and collector
dequeues a mailbox of capacity `cap` never retains more than `cap`
undrained events. -/
theorem claim_C6_drop_on_full (q : List LatencyEvent) (ev : LatencyEvent)
    (q2 : List Unit) (cap : Nat) (ops : List (MailboxOp Nat)) :
    (¬ q.length < latencyChannelCapacity → RecordLatency q ev = q)
    ∧ (¬ q2.length < errorChannelCapacity → RecordError q2 = q2)
    ∧ (mailboxRun cap ops).length ≤ cap := by
  refine ⟨?_, ?_, mailboxRun_length_le cap ops⟩
  · intro h
    simp only [RecordLatency, trySend, if_neg h]
  · intro h
    simp only [RecordError, trySend, if_neg h]

theorem claim_C6_drop_on_full_witness :
    RecordLatency (List.replicate latencyChannelCapacity (LatencyEvent.mk 5 0))
        (LatencyEvent.mk 6 1)
      = List.replicate latencyChannelCapacity (LatencyEvent.mk 5 0)
    ∧ RecordError (List.replicate errorChannelCapacity ())
      = List.replicate errorChannelCapacity ()
    ∧ (mailboxRun 2 [.send 1, .send 2, .send 3]).length ≤ 2 := by
  obtain ⟨h1, h2, h3⟩ :=
    claim_C6_drop_on_full
      (List.replicate latencyChannelCapacity (LatencyEvent.mk 5 0))
      (LatencyEvent.mk 6 1)
      (List.replicate errorChannelCapacity ()) 2 [.send 1, .send 2, .send 3]
  exact ⟨h1 (by simp), h2 (by simp), h3⟩

/-- Written from the spec's words for C7: look up the archived window at
`currentWindowStartSecond - windowSizeSeconds` (the window immediately
preceding the in-progress one); return its (count, p50, p95, p99, max), or
the all-zero tuple if absent or empty. -/
def previousWindowSnapshotSpec (ps : PerformanceStats) :
    Int × Int × Int × Int × Int :=
  match ps.windowedHistograms (ps.currentWindowStartSecond - MetricWindowSizeSeconds) with
  | some h =>
    if 0 < h.totalCount then
      (h.totalCount, h.valueAtQuantile 50, h.valueAtQuantile 95,
       h.valueAtQuantile 99, h.maxValue)
    else (0, 0, 0, 0, 0)
  | none => (0, 0, 0, 0, 0)

theorem totalCount_nonneg (h : Hist) : 0 ≤ h.totalCount := by
  unfold Hist.totalCount
  exact_mod_cast Nat.zero_le _

/-- C7: `GetPreviousWindowStats` returns exactly what the spec describes —
the (count, p50, p95, p99, max) of the archived window stored under key
`currentWindowStartSecond - MetricWindowSizeSeconds` — and it returns the
all-zero tuple exactly when no window is archived under that key or the
archived window has zero recorded values. -/
theorem claim_C7_previous_window_snapshot (ps : PerformanceStats) :
    GetPreviousWindowStats ps = previousWindowSnapshotSpec ps
    ∧ (GetPreviousWindowStats ps = (0, 0, 0, 0, 0) ↔
        ps.windowedHistograms (ps.currentWindowStartSecond - MetricWindowSizeSeconds)
            = none
        ∨ ∃ h, ps.windowedHistograms
              (ps.currentWindowStartSecond - MetricWindowSizeSeconds) = some h
            ∧ h.totalCount = 0) := by
  cases hl : ps.windowedHistograms
      (ps.currentWindowStartSecond - MetricWindowSizeSeconds) with
  | none =>
    constructor
    · simp [GetPreviousWindowStats, previousWindowSnapshotSpec, hl]
    · simp [GetPreviousWindowStats, hl]
  | some h =>
    have hnn : 0 ≤ h.totalCount := totalCount_nonneg h
    constructor
    · simp only [GetPreviousWindowStats, previousWindowSnapshotSpec, hl]
      by_cases hz : h.totalCount = 0
      · have hng : ¬ 0 < h.totalCount := by omega
        simp [hz, hng]
      · have hpos : 0 < h.totalCount := by omega
        have hng : ¬ h.totalCount = 0 := hz
        simp [hng, hpos]
    · simp only [GetPreviousWindowStats, hl]
      by_cases hz : h.totalCount = 0
      · simp only [if_pos hz]
        constructor
        · intro _
          exact Or.inr ⟨h, rfl, hz⟩
        · intro _
          trivial
      · simp only [if_neg hz]
        constructor
        · intro hx
          have h1 : h.totalCount = 0 := congrArg (fun t => t.1) hx
          exact absurd h1 hz
        · intro hx
          rcases hx with hx | ⟨h2, hh2, hz2⟩
          · exact absurd hx (by simp)
          · have heq : h = h2 := by injection hh2
            exact absurd (heq ▸ hz2) hz

/-- Written from the spec's words for C8: look up `now - 1` in the Window
Archive; if present and non-empty, return its quantile at `p`; otherwise
fall back to the Current Window Histogram's quantile if that is non-empty;
otherwise return 0. -/
def percentileLastSecondSpec (ps : PerformanceStats) (now : Int) (p : ℚ) :
    Int :=
  match ps.windowedHistograms (now - 1) with
  | some h =>
    if 0 < h.totalCount then h.valueAtQuantile p
    else if 0 < ps.currentHistogram.totalCount then
      ps.currentHistogram.valueAtQuantile p
    else 0
  | none =>
    if 0 < ps.currentHistogram.totalCount then
      ps.currentHistogram.valueAtQuantile p
    else 0

/-- C8: for every percentile `p`, `GetLastSecondPercentile` returns the
quantile at `p` of the archived window keyed by `now - 1` when that entry
exists and is non-empty, otherwise the current window histogram's quantile
at `p` when that histogram is non-empty, otherwise 0. -/
theorem claim_C8_percentile_last_second (ps : PerformanceStats) (now : Int)
    (p : ℚ) :
    GetLastSecondPercentile ps now p = percentileLastSecondSpec ps now p := by
  cases hl : ps.windowedHistograms (now - 1) with
  | none =>
    simp only [GetLastSecondPercentile, percentileLastSecondSpec, hl]
  | some h =>
    simp only [GetLastSecondPercentile, percentileLastSecondSpec, hl]
    split_ifs <;> rfl

/-- C9: a freshly created aggregator with no recorded events reports
`GetQPS = 0` for any elapsed time (including the guarded elapsed-time-0
case), a `GetStats` snapshot whose counters, throughput and p50/p95/p99
percentiles are all 0, an all-zero `GetPreviousWindowStats` tuple, and
`GetOpsLastSecond = 0` for any query time. -/
theorem claim_C9_empty_state_defaults (t0 : Int) (elapsed : ℚ) (now : Int) :
    GetQPS (NewPerformanceStats t0) elapsed = 0
    ∧ GetStats (NewPerformanceStats t0) elapsed = (0, 0, 0, 0, 0, 0, 0)
    ∧ GetPreviousWindowStats (NewPerformanceStats t0) = (0, 0, 0, 0, 0)
    ∧ GetOpsLastSecond (NewPerformanceStats t0) now = 0 := by
  have hq : GetQPS (NewPerformanceStats t0) elapsed = 0 := by
    simp only [GetQPS, NewPerformanceStats]
    split_ifs <;> simp
  refine ⟨hq, ?_, ?_, ?_⟩
  · simp only [GetStats]
    rw [hq]
    simp [NewPerformanceStats, Hist.empty, Hist.totalCount]
  · simp [GetPreviousWindowStats, NewPerformanceStats]
  · simp [GetOpsLastSecond, NewPerformanceStats]

end ServerlessCacheBench
